import Mathlib

/-!
Verification of the Pong game in `Pong/main.cpp` (single-file raylib game).

The C++ source works on IEEE floats; this development embeds the arithmetic
over `ℚ`, reading every float literal of the source exactly (all of them are
dyadic or decimal).  `fmod` is embedded as truncated remainder (`fmodQ`),
which is what C's `fmod` computes.  Screen dimensions are the `constexpr`
values of the source.

State that the source keeps in member fields or function-local `static`
variables is made explicit (`GameState`, the `activeKey` of the input
resolver, the random value drawn by `GetRandomValue`).
-/

namespace Pong

/-- Source `constexpr int screenWidth = 800` (main.cpp:26). -/
def screenWidth : ℚ := 800

/-- Source `constexpr int screenHeight = 450` (main.cpp:27). -/
def screenHeight : ℚ := 450

/-- raylib `Vector2` with the two float fields, embedded over `ℚ`. -/
structure Vector2 where
  x : ℚ
  y : ℚ
deriving DecidableEq

/-- Source `Ball : GameObject` (main.cpp:169-178): position, versor, speed, radius.
The `color` field is presentation-only and dropped. -/
structure Ball where
  position : Vector2
  versor : Vector2
  speed : ℚ
  radius : ℚ
deriving DecidableEq

/-- Source `Paddle : GameObject` (main.cpp:136-167): position, versor, speed, size.
The `color` field is presentation-only and dropped. -/
structure Paddle where
  position : Vector2
  versor : Vector2
  speed : ℚ
  size : Vector2
deriving DecidableEq

/-- C's `fmod(x, p)`: truncated remainder `x - p * trunc(x / p)`, the result
having the sign of `x` (for `p > 0`).  Truncation toward zero is floor for a
non-negative quotient and ceiling for a negative one. -/
def fmodQ (x p : ℚ) : ℚ :=
  if 0 ≤ x / p then x - p * ⌊x / p⌋ else x - p * ⌈x / p⌉

/-- Source `Game::predictBallY(float targetX)` (main.cpp:419-435): straight-line
extrapolation of the ball to the vertical line `targetX`, then triangle-wave
folding into `[0, screenHeight]` (period `2 * screenHeight`). -/
def predictBallY (ball : Ball) (targetX : ℚ) : ℚ :=
  let dx := targetX - ball.position.x
  let dy := dx * (ball.versor.y / ball.versor.x)
  let y_raw := ball.position.y + dy
  let period := 2 * screenHeight
  let y_mod := fmodQ y_raw period
  let y_mod2 := if y_mod < 0 then y_mod + period else y_mod
  if y_mod2 ≤ screenHeight then y_mod2 else period - y_mod2

/-- Steps 2 of `predictBallY` in isolation (main.cpp:425-434): fold a raw
vertical coordinate into `[0, screenHeight]` by the source's
`fmod`-then-fix-negative-then-reflect computation. -/
def triangleFold (u : ℚ) : ℚ :=
  if (if fmodQ u (2 * screenHeight) < 0
      then fmodQ u (2 * screenHeight) + 2 * screenHeight
      else fmodQ u (2 * screenHeight)) ≤ screenHeight
  then (if fmodQ u (2 * screenHeight) < 0
        then fmodQ u (2 * screenHeight) + 2 * screenHeight
        else fmodQ u (2 * screenHeight))
  else 2 * screenHeight -
    (if fmodQ u (2 * screenHeight) < 0
     then fmodQ u (2 * screenHeight) + 2 * screenHeight
     else fmodQ u (2 * screenHeight))

/-- The same fold written with the canonical non-negative representative
`u mod period = u - period * ⌊u / period⌋`; the spec describes the algorithm
in these terms ("`y_raw mod period` (always made non-negative)"). -/
def floorFold (u : ℚ) : ℚ :=
  if u - 2 * screenHeight * ⌊u / (2 * screenHeight)⌋ ≤ screenHeight
  then u - 2 * screenHeight * ⌊u / (2 * screenHeight)⌋
  else 2 * screenHeight - (u - 2 * screenHeight * ⌊u / (2 * screenHeight)⌋)

/-- Definition of `predictBallY` literally as the spec's words describe it: raw straight
line `y_raw = ball.y + (targetX - ball.x) * (direction.y / direction.x)`,
then the non-negative `mod`, then reflection of values above `screenHeight`. -/
def specPredictBallY (ball : Ball) (targetX : ℚ) : ℚ :=
  floorFold (ball.position.y +
    (targetX - ball.position.x) * (ball.versor.y / ball.versor.x))

/-- Literal wall-bounce simulation of the ball in the time parameter: starting
at vertical position `y` with vertical velocity `v` (change of `y` per unit of
time) and `d` time units left before the ball's center reaches the target
line, advance straight until either the target is reached or a wall (`y = 0`
or `y = screenHeight`) is hit, reflecting the vertical velocity at each wall
hit.  `n` bounds the number of intermediate wall bounces; `none` means the
bound was exhausted before the target line was reached. -/
def simulateBounces : ℕ → ℚ → ℚ → ℚ → Option ℚ
  | n, y, v, d =>
    if 0 < v then
      if v * d ≤ screenHeight - y then some (y + v * d)
      else
        match n with
        | 0 => none
        | Nat.succ m =>
            simulateBounces m screenHeight (-v) (d - (screenHeight - y) / v)
    else if v < 0 then
      if 0 ≤ y + v * d then some (y + v * d)
      else
        match n with
        | 0 => none
        | Nat.succ m => simulateBounces m 0 (-v) (d - y / (-v))
    else some y

/-- raylib `Rectangle` (float fields `x, y, width, height`). -/
structure Rectangle where
  x : ℚ
  y : ℚ
  width : ℚ
  height : ℚ
deriving DecidableEq

/-- Source `Paddle::toRectangle` (main.cpp:146-148). -/
def Paddle.toRectangle (p : Paddle) : Rectangle :=
  Rectangle.mk p.position.x p.position.y p.size.x p.size.y

/-- Source `Paddle::getCenter` (main.cpp:150-152). -/
def Paddle.getCenter (p : Paddle) : Vector2 :=
  Vector2.mk (p.position.x + p.size.x / 2) (p.position.y + p.size.y / 2)

/-- Modelled from the spec: `CheckCollisionCircleRec` is provided by the
external render library (raylib, not part of this repository); the spec calls
it a "circle-vs-rectangle intersection" test.  Embedded as the standard such
test: the circle intersects the rectangle iff the point of the rectangle
closest to the circle's center is within `radius` of it.  No claim depends on
the internals of this predicate, only on which state change it gates. -/
def checkCollisionCircleRec (center : Vector2) (radius : ℚ) (rec : Rectangle) :
    Bool :=
  decide ((center.x - max rec.x (min center.x (rec.x + rec.width))) ^ 2 +
    (center.y - max rec.y (min center.y (rec.y + rec.height))) ^ 2 ≤ radius ^ 2)

/-- Source `GameObject::normaliseVersor` (main.cpp:127-132) at a vertical vector
`(0, dy)`, the only shape this development normalizes symbolically: there
`len = sqrt(0^2 + dy^2) = |dy|` is exact over `ℚ`.  Both `pointTowards`
targets of the AI paddle share the paddle's own `x`, so its steering versors
are vertical. -/
def normaliseVertical (dy : ℚ) : Vector2 :=
  if |dy| = 0 then Vector2.mk 0 0 else Vector2.mk (0 / |dy|) (dy / |dy|)

/-- Source `Paddle::update(float deltaTime)` (main.cpp:154-166).  `delta` stands for
the per-frame displacement `normaliseVersor(versor) * speed * deltaTime`; it
is kept as an explicit parameter (and universally quantified in the theorems)
because the source computes it with a floating-point square root, so every
displacement the source can produce is some `delta`.  The per-axis
accept-or-discard clamping is embedded exactly. -/
def Paddle.update (p : Paddle) (delta : Vector2) : Paddle :=
  let newPosition := Vector2.mk (p.position.x + delta.x) (p.position.y + delta.y)
  Paddle.mk
    (Vector2.mk
      (if 0 ≤ newPosition.x ∧ newPosition.x + p.size.x ≤ screenWidth
       then newPosition.x else p.position.x)
      (if 0 ≤ newPosition.y ∧ newPosition.y + p.size.y ≤ screenHeight
       then newPosition.y else p.position.y))
    p.versor p.speed p.size

/-- Source `GameObject::update` (main.cpp:118-120) for the ball: unclamped position
integration.  As for `Paddle.update`, `delta` stands for the floating-point
displacement `normaliseVersor(versor) * speed * deltaTime` and is quantified. -/
def ballIntegrate (b : Ball) (delta : Vector2) : Ball :=
  { b with position := Vector2.mk (b.position.x + delta.x) (b.position.y + delta.y) }

/-- The game state mutated by `Game`'s private members (main.cpp:318-327)
together with the function-local `static` state of `handleAIPaddleMovement`
(main.cpp:396-398): `predictedY` and `lastFrameBallDirX`.  Presentation-only
members (texts, audio manager, the speed-record display) are dropped. -/
structure GameState where
  leftPaddle : Paddle
  rightPaddle : Paddle
  ball : Ball
  scoreLeft : ℤ
  scoreRight : ℤ
  predictedY : ℚ
  lastFrameBallDirX : ℚ
deriving DecidableEq

/-- Source `Game::randomValidVersor` (main.cpp:436-440).  `rv` is the raw value the
external `GetRandomValue(-1000, 1000)` returns. -/
def randomValidVersor (rv : ℤ) : ℚ :=
  let versor : ℚ := rv / 1000
  if versor = 0 then -1 else versor

/-- Source `ScoreText::incrementScore(bool isLeft)` (main.cpp:195-197). -/
def incrementScore (g : GameState) (isLeft : Bool) : GameState :=
  if isLeft then { g with scoreLeft := g.scoreLeft + 1 }
  else { g with scoreRight := g.scoreRight + 1 }

/-- The prediction expression recomputed by `Game::handleAIPaddleMovement`
(main.cpp:397, 401, 408):
`predictBallY(rightPaddle.position.x + rightPaddle.size.x / 2) -
 rightPaddle.size.y / 2`. -/
def aiPrediction (g : GameState) : ℚ :=
  predictBallY g.ball (g.rightPaddle.position.x + g.rightPaddle.size.x / 2) -
    g.rightPaddle.size.y / 2

/-- Main.cpp:406-409: when the ball turned toward the AI paddle since the
last frame, recompute the prediction. -/
def aiRecompute (g : GameState) : GameState :=
  if g.lastFrameBallDirX = -1 ∧ g.ball.versor.x = 1 then
    { g with predictedY := aiPrediction g }
  else g

/-- Main.cpp:411-415: steer the right paddle (via `pointTowards`, whose
target always shares the paddle's `x`) toward the idle center while the ball
recedes, toward the cached prediction while it approaches. -/
def aiSteerVersor (g : GameState) : Vector2 :=
  if g.ball.versor.x = -1 then
    normaliseVertical
      ((screenHeight / 2 - g.rightPaddle.size.y / 2) - g.rightPaddle.position.y)
  else normaliseVertical (g.predictedY - g.rightPaddle.position.y)

/-- Steering applied to the right paddle (its `pointTowards` call). -/
def aiSteer (g : GameState) : GameState :=
  { g with rightPaddle := { g.rightPaddle with versor := aiSteerVersor g } }

/-- Main.cpp:417: record the ball's horizontal direction for the next frame. -/
def aiRecord (g : GameState) : GameState :=
  { g with lastFrameBallDirX := if g.ball.versor.x ≠ -1 then 1 else -1 }

/-- Source `Game::handleAIPaddleMovement(bool resetFunction)` (main.cpp:396-418). -/
def handleAIPaddleMovement (g : GameState) (resetFunction : Bool) : GameState :=
  if resetFunction then
    { g with predictedY := aiPrediction g, lastFrameBallDirX := g.ball.versor.x }
  else aiRecord (aiSteer (aiRecompute g))

/-- Source `Game::resetRound` (main.cpp:349-354): recenter the ball, re-serve toward
the right (`RIGHT = 1`) with a fresh random vertical component, reset speed to
the base `400`, and re-arm the AI prediction. -/
def resetRound (g : GameState) (rv : ℤ) : GameState :=
  handleAIPaddleMovement
    { g with ball := { g.ball with
        position := Vector2.mk (screenWidth / 2) (screenHeight / 2),
        versor := Vector2.mk 1 (randomValidVersor rv),
        speed := 400 } }
    true

/-- Source `Game::resetGame` (main.cpp:355-364): additionally reposition both
paddles and zero the scores.  (The speed-record display reset of
`getSpeedRecord(true)` is presentation-only and dropped.) -/
def resetGame (g : GameState) (rv : ℤ) : GameState :=
  handleAIPaddleMovement
    { g with
        leftPaddle := { g.leftPaddle with
          position := Vector2.mk 50 (screenHeight / 2 - 50) },
        rightPaddle := { g.rightPaddle with
          position := Vector2.mk (screenWidth - 50) (screenHeight / 2 - 50) },
        ball := { g.ball with
          position := Vector2.mk (screenWidth / 2) (screenHeight / 2),
          versor := Vector2.mk 1 (randomValidVersor rv),
          speed := 400 },
        scoreLeft := 0,
        scoreRight := 0 }
    true

/-- Source `Game::handlePaddleBallCollision(Paddle&)` (main.cpp:365-377), effect on
the ball: on collision, flip the horizontal versor sign, set the vertical
versor to the hit offset over the paddle's half height, and grow the speed by
`20 * (speed / 400) * |new vertical versor|`.  (The hit sound is
presentation-only and dropped.) -/
def hitBall (ball : Ball) (paddle : Paddle) : Ball :=
  if checkCollisionCircleRec ball.position ball.radius (Paddle.toRectangle paddle) then
    { ball with
        versor := Vector2.mk (ball.versor.x * -1)
          ((ball.position.y - (Paddle.getCenter paddle).y) / (paddle.size.y / 2)),
        speed := ball.speed + 20 * (ball.speed / 400) *
          |(ball.position.y - (Paddle.getCenter paddle).y) / (paddle.size.y / 2)| }
  else ball

/-- Source `Game::handlePaddleBallCollision` lifted to the game state; `isLeft`
selects which paddle reference the call receives. -/
def handlePaddleBallCollision (g : GameState) (isLeft : Bool) : GameState :=
  { g with ball := hitBall g.ball (if isLeft then g.leftPaddle else g.rightPaddle) }

/-- Source `Game::handleWallBallCollision` (main.cpp:378-383): flip the vertical
versor sign when the ball's leading edge touches the top or bottom wall. -/
def handleWallBallCollision (g : GameState) : GameState :=
  if g.ball.position.y - g.ball.radius ≤ 0 ∨
      g.ball.position.y + g.ball.radius ≥ screenHeight then
    { g with ball := { g.ball with
        versor := Vector2.mk g.ball.versor.x (g.ball.versor.y * -1) } }
  else g

/-- Source `Game::handlePointScoring` (main.cpp:384-395): right-edge crossing scores
for the left player, otherwise left-edge crossing scores for the right
player; each triggers exactly one round reset.  `rv` is the random value the
reset's serve draws.  (The score sound is presentation-only and dropped.) -/
def handlePointScoring (g : GameState) (rv : ℤ) : GameState :=
  if g.ball.position.x + g.ball.radius ≥ screenWidth then
    resetRound (incrementScore g true) rv
  else if g.ball.position.x - g.ball.radius ≤ 0 then
    resetRound (incrementScore g false) rv
  else g

/-- Source `Game::init` (main.cpp:231-250) restricted to the modelled state, plus
the initialization of `handleAIPaddleMovement`'s `static` locals on their
first evaluation (main.cpp:397-398: `predictedY` from the initial state,
`lastFrameBallDirX = LEFT`). -/
def initState (rv : ℤ) : GameState :=
  let leftPaddle := Paddle.mk (Vector2.mk 50 (screenHeight / 2 - 50))
    (Vector2.mk 0 0) 300 (Vector2.mk 10 100)
  let rightPaddle := Paddle.mk (Vector2.mk (screenWidth - 50) (screenHeight / 2 - 50))
    (Vector2.mk 0 0) 300 (Vector2.mk 10 100)
  let ball := Ball.mk (Vector2.mk (screenWidth / 2) (screenHeight / 2))
    (Vector2.mk 1 (randomValidVersor rv)) 400 7
  GameState.mk leftPaddle rightPaddle ball 0 0
    (predictBallY ball (rightPaddle.position.x + rightPaddle.size.x / 2) -
      rightPaddle.size.y / 2)
    (-1)

/-- raylib key codes for the two vertical movement keys (external header
values; only their distinctness matters). -/
def KEY_UP : ℤ := 265

def KEY_DOWN : ℤ := 264

/-- Source `Game::getCurrentVerticalKey` (main.cpp:329-347) as a pure function of
the persisted `static int activeKey` (`-1` when no key is recorded) and the
two key-down flags.  Returns the key reported for this frame together with
the updated `activeKey`.  Note the both-held branch of the source returns
without assigning `activeKey`. -/
def getCurrentVerticalKey (activeKey : ℤ) (upPressed downPressed : Bool) :
    ℤ × ℤ :=
  if !upPressed && !downPressed then (-1, -1)
  else if upPressed ^^ downPressed then
    if upPressed then (KEY_UP, KEY_UP) else (KEY_DOWN, KEY_DOWN)
  else if upPressed && downPressed then
    (if activeKey = KEY_UP then KEY_DOWN else KEY_UP, activeKey)
  else (activeKey, activeKey)

/-- One phase of the per-frame mutation of the game state, as sequenced by
`Game::readInput` and `Game::update` (main.cpp:252-293).  Phases that only
hold presentation state (texts, music) are dropped.  Position integration and
the player/AI paddle-versor assignments carry their floating-point-derived
quantities as universally quantified parameters, which over-approximates the
source's behavior; the reachability invariants proved below concern only the
ball's versor and speed, which these phases never touch. -/
inductive Step : GameState → GameState → Prop
  | paddleHit (g : GameState) (isLeft : Bool) :
      Step g (handlePaddleBallCollision g isLeft)
  | wallHit (g : GameState) : Step g (handleWallBallCollision g)
  | scoring (g : GameState) (rv : ℤ) (h1 : -1000 ≤ rv) (h2 : rv ≤ 1000) :
      Step g (handlePointScoring g rv)
  | aiMove (g : GameState) : Step g (handleAIPaddleMovement g false)
  | playerInput (g : GameState) (v : Vector2) :
      Step g { g with leftPaddle := { g.leftPaddle with versor := v } }
  | restart (g : GameState) (rv : ℤ) (h1 : -1000 ≤ rv) (h2 : rv ≤ 1000) :
      Step g (resetGame g rv)
  | integrate (g : GameState) (dl dr db : Vector2) :
      Step g { g with
        leftPaddle := Paddle.update g.leftPaddle dl,
        rightPaddle := Paddle.update g.rightPaddle dr,
        ball := ballIntegrate g.ball db }

/-- States reachable from `Game::init` by any sequence of frame phases. -/
inductive Reachable : GameState → Prop
  | init (rv : ℤ) (h1 : -1000 ≤ rv) (h2 : rv ≤ 1000) : Reachable (initState rv)
  | step (g g' : GameState) (hg : Reachable g) (hs : Step g g') : Reachable g'

/-- A concrete state used to instantiate the scoring theorem: the initial
state with the ball moved to the right edge. -/
def sampleScoringState : GameState :=
  { initState 0 with ball := Ball.mk (Vector2.mk 795 225) (Vector2.mk 1 1) 400 7 }

/-- A concrete state used to instantiate the paddle-hit theorem: the initial
state with the ball overlapping the left paddle. -/
def sampleHitState : GameState :=
  { initState 0 with ball := Ball.mk (Vector2.mk 55 200) (Vector2.mk (-1) 1) 400 7 }

lemma predictBallY_eq_triangleFold (ball : Ball) (targetX : ℚ) :
    predictBallY ball targetX =
      triangleFold (ball.position.y +
        (targetX - ball.position.x) * (ball.versor.y / ball.versor.x)) := rfl

lemma ceil_eq_floor_add_one_of_fract_ne_zero {q : ℚ} (h : Int.fract q ≠ 0) :
    ⌈q⌉ = ⌊q⌋ + 1 := by
  have hfr : Int.fract q = q - ⌊q⌋ := (Int.self_sub_floor q).symm
  have hlt : (⌊q⌋ : ℚ) < q := by
    rcases lt_or_eq_of_le (Int.floor_le q) with h' | h'
    · exact h'
    · exact absurd (by rw [hfr, h', sub_self]) h
  have h1 : ⌈q⌉ ≤ ⌊q⌋ + 1 := by
    rw [Int.ceil_le]
    push_cast
    exact (Int.lt_floor_add_one q).le
  have h2 : ⌊q⌋ + 1 ≤ ⌈q⌉ := by
    have hlt2 : (⌊q⌋ : ℚ) < (⌈q⌉ : ℚ) := lt_of_lt_of_le hlt (Int.le_ceil q)
    have : ⌊q⌋ < ⌈q⌉ := by exact_mod_cast hlt2
    omega
  omega

lemma floorMod_eq_fract (u : ℚ) :
    u - 2 * screenHeight * ⌊u / (2 * screenHeight)⌋ =
      2 * screenHeight * Int.fract (u / (2 * screenHeight)) := by
  have h : Int.fract (u / (2 * screenHeight)) =
      u / (2 * screenHeight) - ⌊u / (2 * screenHeight)⌋ :=
    (Int.self_sub_floor _).symm
  rw [h, mul_sub]
  have h2 : 2 * screenHeight * (u / (2 * screenHeight)) = u := by
    rw [mul_comm]
    exact div_mul_cancel₀ u (by norm_num [screenHeight])
  rw [h2]

lemma floorMod_nonneg (u : ℚ) :
    0 ≤ u - 2 * screenHeight * ⌊u / (2 * screenHeight)⌋ := by
  rw [floorMod_eq_fract]
  have h1 := Int.fract_nonneg (u / (2 * screenHeight))
  have h2 : (0:ℚ) ≤ 2 * screenHeight := by norm_num [screenHeight]
  exact mul_nonneg h2 h1

lemma floorMod_lt (u : ℚ) :
    u - 2 * screenHeight * ⌊u / (2 * screenHeight)⌋ < 2 * screenHeight := by
  rw [floorMod_eq_fract]
  have h1 := Int.fract_lt_one (u / (2 * screenHeight))
  have h2 : (0:ℚ) < 2 * screenHeight := by norm_num [screenHeight]
  calc 2 * screenHeight * Int.fract (u / (2 * screenHeight))
      < 2 * screenHeight * 1 := by
        exact mul_lt_mul_of_pos_left h1 h2
    _ = 2 * screenHeight := mul_one _

/-- The source's `fmod`-based fold agrees everywhere with the floor-mod based
fold. -/
lemma triangleFold_eq_floorFold (u : ℚ) : triangleFold u = floorFold u := by
  have hpos : (0:ℚ) < 2 * screenHeight := by norm_num [screenHeight]
  rcases le_or_lt 0 (u / (2 * screenHeight)) with hq | hq
  · have hmod : fmodQ u (2 * screenHeight) =
        u - 2 * screenHeight * ⌊u / (2 * screenHeight)⌋ := by
      simp only [fmodQ, if_pos hq]
    simp only [triangleFold, floorFold, hmod,
      if_neg (not_lt.mpr (floorMod_nonneg u))]
  · have hmod : fmodQ u (2 * screenHeight) =
        u - 2 * screenHeight * ⌈u / (2 * screenHeight)⌉ := by
      simp only [fmodQ, if_neg (not_le.mpr hq)]
    rcases eq_or_ne (Int.fract (u / (2 * screenHeight))) 0 with hz | hz
    · have hint : (⌊u / (2 * screenHeight)⌋ : ℚ) = u / (2 * screenHeight) := by
        have h := Int.self_sub_floor (u / (2 * screenHeight))
        rw [hz] at h
        linarith
      have hceq : ⌈u / (2 * screenHeight)⌉ = ⌊u / (2 * screenHeight)⌋ := by
        rw [← hint, Int.ceil_intCast, Int.floor_intCast]
      rw [hceq] at hmod
      simp only [triangleFold, floorFold, hmod,
        if_neg (not_lt.mpr (floorMod_nonneg u))]
    · have hceq := ceil_eq_floor_add_one_of_fract_ne_zero hz
      have hmz : 0 < u - 2 * screenHeight * ⌊u / (2 * screenHeight)⌋ := by
        have h0 := floorMod_nonneg u
        rcases lt_or_eq_of_le h0 with h' | h'
        · exact h'
        · exfalso
          apply hz
          have := floorMod_eq_fract u
          rw [← h'] at this
          have h2 : (2 * screenHeight) * Int.fract (u / (2 * screenHeight)) = 0 :=
            this.symm
          rcases mul_eq_zero.mp h2 with h3 | h3
          · exact absurd h3 (by norm_num [screenHeight])
          · exact h3
      have hneg : u - 2 * screenHeight * ((⌊u / (2 * screenHeight)⌋ : ℚ) + 1) < 0 := by
        have h1 := floorMod_lt u
        have hexp : u - 2 * screenHeight * ((⌊u / (2 * screenHeight)⌋ : ℚ) + 1) =
            (u - 2 * screenHeight * ⌊u / (2 * screenHeight)⌋) - 2 * screenHeight := by
          ring
        rw [hexp]
        linarith
      have hmod2 : fmodQ u (2 * screenHeight) =
          u - 2 * screenHeight * ((⌊u / (2 * screenHeight)⌋ : ℚ) + 1) := by
        rw [hmod, hceq]
        push_cast
        ring
      have hfix : u - 2 * screenHeight * ((⌊u / (2 * screenHeight)⌋ : ℚ) + 1) +
          2 * screenHeight = u - 2 * screenHeight * ⌊u / (2 * screenHeight)⌋ := by
        ring
      simp only [triangleFold, floorFold, hmod2, if_pos hneg, hfix]

/-- Lemma: `floorFold` stays in `[0, screenHeight]`. -/
lemma floorFold_mem (u : ℚ) : 0 ≤ floorFold u ∧ floorFold u ≤ screenHeight := by
  have h0 := floorMod_nonneg u
  have h1 := floorMod_lt u
  unfold floorFold
  split_ifs with h
  · exact ⟨h0, h⟩
  · push_neg at h
    constructor
    · linarith
    · linarith

/-- Lemma: `floorFold` is periodic with period `2 * screenHeight`. -/
lemma floorFold_add_period (u : ℚ) :
    floorFold (u + 2 * screenHeight) = floorFold u := by
  have hne : (2 * screenHeight : ℚ) ≠ 0 := by norm_num [screenHeight]
  have hq : (u + 2 * screenHeight) / (2 * screenHeight) =
      u / (2 * screenHeight) + 1 := by
    field_simp
  unfold floorFold
  rw [hq, Int.floor_add_one]
  push_cast
  have harg : u + 2 * screenHeight -
      2 * screenHeight * ((⌊u / (2 * screenHeight)⌋ : ℚ) + 1) =
      u - 2 * screenHeight * ⌊u / (2 * screenHeight)⌋ := by ring
  rw [harg]

/-- Lemma: `floorFold` is even. -/
lemma floorFold_neg (u : ℚ) : floorFold (-u) = floorFold u := by
  have hnegdiv : (-u) / (2 * screenHeight) = -(u / (2 * screenHeight)) := by ring
  rcases eq_or_ne (Int.fract (u / (2 * screenHeight))) 0 with hz | hz
  · have hmu : u - 2 * screenHeight * ⌊u / (2 * screenHeight)⌋ = 0 := by
      rw [floorMod_eq_fract, hz, mul_zero]
    have hz2 : Int.fract ((-u) / (2 * screenHeight)) = 0 := by
      rw [hnegdiv]
      exact Int.fract_neg_eq_zero.mpr hz
    have hmnu : -u - 2 * screenHeight * ⌊(-u) / (2 * screenHeight)⌋ = 0 := by
      rw [floorMod_eq_fract, hz2, mul_zero]
    unfold floorFold
    rw [hmu, hmnu]
  · have hz2 : Int.fract ((-u) / (2 * screenHeight)) =
        1 - Int.fract (u / (2 * screenHeight)) := by
      rw [hnegdiv]
      exact Int.fract_neg hz
    have hmnu : -u - 2 * screenHeight * ⌊(-u) / (2 * screenHeight)⌋ =
        2 * screenHeight - (u - 2 * screenHeight * ⌊u / (2 * screenHeight)⌋) := by
      rw [floorMod_eq_fract (-u), hz2, floorMod_eq_fract u]
      ring
    have hm0 : 0 < u - 2 * screenHeight * ⌊u / (2 * screenHeight)⌋ := by
      rcases lt_or_eq_of_le (floorMod_nonneg u) with h' | h'
      · exact h'
      · exfalso
        apply hz
        have := floorMod_eq_fract u
        rw [← h'] at this
        rcases mul_eq_zero.mp this.symm with h3 | h3
        · exact absurd h3 (by norm_num [screenHeight])
        · exact h3
    have hm1 := floorMod_lt u
    unfold floorFold
    rw [hmnu]
    rcases lt_trichotomy (u - 2 * screenHeight * ⌊u / (2 * screenHeight)⌋)
        screenHeight with hc | hc | hc
    · rw [if_pos hc.le, if_neg (by push_neg; linarith)]
      ring
    · rw [if_pos hc.le, if_pos (by linarith)]
      linarith
    · rw [if_neg (not_le.mpr hc), if_pos (by linarith)]

/-- Lemma: `floorFold` is the identity on `[0, screenHeight]`. -/
lemma floorFold_eq_self {u : ℚ} (h0 : 0 ≤ u) (h1 : u ≤ screenHeight) :
    floorFold u = u := by
  have hpos : (0:ℚ) < 2 * screenHeight := by norm_num [screenHeight]
  have hSpos : (0:ℚ) < screenHeight := by norm_num [screenHeight]
  have hfl : ⌊u / (2 * screenHeight)⌋ = 0 := by
    rw [Int.floor_eq_zero_iff]
    refine Set.mem_Ico.mpr ⟨div_nonneg h0 hpos.le, ?_⟩
    rw [div_lt_one hpos]
    linarith
  unfold floorFold
  rw [hfl]
  simp only [Int.cast_zero, mul_zero, sub_zero]
  rw [if_pos h1]

lemma predictBallY_eq_floorFold (ball : Ball) (targetX : ℚ) :
    predictBallY ball targetX =
      floorFold (ball.position.y +
        (targetX - ball.position.x) * (ball.versor.y / ball.versor.x)) := by
  rw [predictBallY_eq_triangleFold, triangleFold_eq_floorFold]

/-- Claim C1: `predictBallY(targetX)` computes exactly the spec's algorithm —
raw extrapolation `y_raw = ball.y + (targetX - ball.x) * (versor.y / versor.x)`,
then the non-negative residue of `y_raw` modulo `2 * screenHeight`, returned
as-is when at most `screenHeight` and reflected as `2 * screenHeight - y_mod`
otherwise; in particular for ball position `(400, 225)`, direction `(1, 0.5)`,
`screenHeight = 450` and `targetX = 750` it returns `400`. -/
theorem predictBallY_spec_algorithm :
    (∀ (ball : Ball) (targetX : ℚ),
        predictBallY ball targetX = specPredictBallY ball targetX) ∧
    predictBallY (Ball.mk (Vector2.mk 400 225) (Vector2.mk 1 (1/2)) 400 7) 750
      = 400 := by
  constructor
  · intro ball targetX
    rw [predictBallY_eq_floorFold]
    rfl
  · rw [predictBallY_eq_floorFold]
    norm_num
    rw [floorFold_eq_self (by norm_num) (by norm_num [screenHeight])]

/-- Claim C3: for every ball position, every direction with nonzero horizontal
component and every target line, `predictBallY` returns a value in the closed
interval `[0, screenHeight]`. -/
theorem predictBallY_mem_range (ball : Ball) (targetX : ℚ)
    (_hdx : ball.versor.x ≠ 0) :
    0 ≤ predictBallY ball targetX ∧ predictBallY ball targetX ≤ screenHeight := by
  rw [predictBallY_eq_floorFold]
  exact floorFold_mem _

/-- Concrete instantiation of `predictBallY_mem_range` at the spec's worked
example. -/
theorem predictBallY_mem_range_witness :
    (Ball.mk (Vector2.mk 400 225) (Vector2.mk 1 (1/2)) 400 7).versor.x ≠ 0 ∧
    (0 ≤ predictBallY (Ball.mk (Vector2.mk 400 225) (Vector2.mk 1 (1/2)) 400 7) 750 ∧
     predictBallY (Ball.mk (Vector2.mk 400 225) (Vector2.mk 1 (1/2)) 400 7) 750
       ≤ screenHeight) :=
  ⟨by norm_num, predictBallY_mem_range _ 750 (by norm_num)⟩

lemma simulateBounces_eq (n : ℕ) (y v d : ℚ) :
    simulateBounces n y v d =
      if 0 < v then
        if v * d ≤ screenHeight - y then some (y + v * d)
        else
          match n with
          | 0 => none
          | Nat.succ m =>
              simulateBounces m screenHeight (-v) (d - (screenHeight - y) / v)
      else if v < 0 then
        if 0 ≤ y + v * d then some (y + v * d)
        else
          match n with
          | 0 => none
          | Nat.succ m => simulateBounces m 0 (-v) (d - y / (-v))
      else some y := by
  rw [simulateBounces.eq_def]

/-- Reflecting around the top wall leaves the fold unchanged. -/
lemma floorFold_reflect (w : ℚ) :
    floorFold (2 * screenHeight - w) = floorFold w := by
  have h1 := floorFold_neg (w - 2 * screenHeight)
  have h2 := floorFold_add_period (w - 2 * screenHeight)
  rw [show w - 2 * screenHeight + 2 * screenHeight = w from by ring] at h2
  rw [show 2 * screenHeight - w = -(w - 2 * screenHeight) from by ring, h1, h2]

/-- Whenever the bounce simulation reaches the target line (under any bounce
budget), the vertical coordinate it reports is the triangle-wave fold of the
unfolded straight line. -/
lemma simulateBounces_sound :
    ∀ (n : ℕ) (y v d r : ℚ), 0 ≤ y → y ≤ screenHeight → 0 ≤ d →
      simulateBounces n y v d = some r → r = floorFold (y + v * d) := by
  intro n
  induction n with
  | zero =>
    intro y v d r h0 h1 hd hs
    rw [simulateBounces_eq] at hs
    by_cases hv : 0 < v
    · rw [if_pos hv] at hs
      by_cases hreach : v * d ≤ screenHeight - y
      · rw [if_pos hreach] at hs
        injection hs with hr
        rw [← hr, floorFold_eq_self (by nlinarith) (by linarith)]
      · rw [if_neg hreach] at hs
        exact absurd hs (by simp)
    · rw [if_neg hv] at hs
      by_cases hv' : v < 0
      · rw [if_pos hv'] at hs
        by_cases hreach : 0 ≤ y + v * d
        · rw [if_pos hreach] at hs
          injection hs with hr
          rw [← hr, floorFold_eq_self hreach (by nlinarith)]
        · rw [if_neg hreach] at hs
          exact absurd hs (by simp)
      · rw [if_neg hv'] at hs
        injection hs with hr
        have hv0 : v = 0 := le_antisymm (not_lt.mp hv) (not_lt.mp hv')
        rw [← hr, hv0, zero_mul, add_zero, floorFold_eq_self h0 h1]
  | succ m ih =>
    intro y v d r h0 h1 hd hs
    rw [simulateBounces_eq] at hs
    by_cases hv : 0 < v
    · rw [if_pos hv] at hs
      by_cases hreach : v * d ≤ screenHeight - y
      · rw [if_pos hreach] at hs
        injection hs with hr
        rw [← hr, floorFold_eq_self (by nlinarith) (by linarith)]
      · rw [if_neg hreach] at hs
        push_neg at hreach
        have hvne : v ≠ 0 := ne_of_gt hv
        have hd' : 0 ≤ d - (screenHeight - y) / v := by
          rw [sub_nonneg, div_le_iff₀ hv]
          nlinarith
        have hrec := ih screenHeight (-v) (d - (screenHeight - y) / v) r
          (by norm_num [screenHeight]) le_rfl hd' hs
        rw [hrec]
        have harg : screenHeight + (-v) * (d - (screenHeight - y) / v) =
            2 * screenHeight - (y + v * d) := by
          have hcancel : v * ((screenHeight - y) / v) = screenHeight - y :=
            mul_div_cancel₀ _ hvne
          have hexp : (-v) * (d - (screenHeight - y) / v) =
              -(v * d) + v * ((screenHeight - y) / v) := by ring
          rw [hexp, hcancel]
          ring
        rw [harg, floorFold_reflect]
    · rw [if_neg hv] at hs
      by_cases hv' : v < 0
      · rw [if_pos hv'] at hs
        by_cases hreach : 0 ≤ y + v * d
        · rw [if_pos hreach] at hs
          injection hs with hr
          rw [← hr, floorFold_eq_self hreach (by nlinarith)]
        · rw [if_neg hreach] at hs
          push_neg at hreach
          have hvne : v ≠ 0 := ne_of_lt hv'
          have hnegv : 0 < -v := by linarith
          have hd' : 0 ≤ d - y / (-v) := by
            rw [sub_nonneg, div_le_iff₀ hnegv]
            nlinarith
          have hrec := ih 0 (-v) (d - y / (-v)) r
            le_rfl (by norm_num [screenHeight]) hd' hs
          rw [hrec]
          have harg : 0 + (-v) * (d - y / (-v)) = -(y + v * d) := by
            have hcancel : (-v) * (y / (-v)) = y :=
              mul_div_cancel₀ _ (ne_of_gt hnegv)
            have hexp : (-v) * (d - y / (-v)) =
                (-v) * d + -((-v) * (y / (-v))) := by ring
            rw [hexp, hcancel]
            ring
          rw [harg, floorFold_neg]
      · rw [if_neg hv'] at hs
        injection hs with hr
        have hv0 : v = 0 := le_antisymm (not_lt.mp hv) (not_lt.mp hv')
        rw [← hr, hv0, zero_mul, add_zero, floorFold_eq_self h0 h1]

/-- A bounce budget of `n` suffices whenever the unfolded vertical travel is
at most `n` screen heights beyond the distance to the first wall. -/
lemma simulateBounces_isSome :
    ∀ (n : ℕ) (y v d : ℚ), 0 ≤ y → y ≤ screenHeight → 0 ≤ d →
      (0 < v → v * d ≤ n * screenHeight + (screenHeight - y)) →
      (v < 0 → (-v) * d ≤ n * screenHeight + y) →
      (simulateBounces n y v d).isSome := by
  intro n
  induction n with
  | zero =>
    intro y v d h0 h1 hd hup hdown
    rw [simulateBounces_eq]
    by_cases hv : 0 < v
    · have hb := hup hv
      push_cast at hb
      rw [if_pos hv, if_pos (by linarith)]
      simp
    · rw [if_neg hv]
      by_cases hv' : v < 0
      · have hb := hdown hv'
        push_cast at hb
        rw [if_pos hv', if_pos (by nlinarith)]
        simp
      · rw [if_neg hv']
        simp
  | succ m ih =>
    intro y v d h0 h1 hd hup hdown
    rw [simulateBounces_eq]
    by_cases hv : 0 < v
    · rw [if_pos hv]
      by_cases hreach : v * d ≤ screenHeight - y
      · rw [if_pos hreach]
        simp
      · rw [if_neg hreach]
        push_neg at hreach
        have hb := hup hv
        push_cast at hb
        have hd' : 0 ≤ d - (screenHeight - y) / v := by
          rw [sub_nonneg, div_le_iff₀ hv]
          nlinarith
        apply ih screenHeight (-v) (d - (screenHeight - y) / v)
          (by norm_num [screenHeight]) le_rfl hd'
        · intro hcontra
          exact absurd hcontra (by linarith)
        · intro _
          have hcancel : v * ((screenHeight - y) / v) = screenHeight - y :=
            mul_div_cancel₀ _ (ne_of_gt hv)
          have hexp : (-(-v)) * (d - (screenHeight - y) / v) =
              v * d - v * ((screenHeight - y) / v) := by ring
          rw [hexp, hcancel]
          linarith
    · rw [if_neg hv]
      by_cases hv' : v < 0
      · rw [if_pos hv']
        by_cases hreach : 0 ≤ y + v * d
        · rw [if_pos hreach]
          simp
        · rw [if_neg hreach]
          push_neg at hreach
          have hb := hdown hv'
          push_cast at hb
          have hnegv : 0 < -v := by linarith
          have hd' : 0 ≤ d - y / (-v) := by
            rw [sub_nonneg, div_le_iff₀ hnegv]
            nlinarith
          apply ih 0 (-v) (d - y / (-v))
            le_rfl (by norm_num [screenHeight]) hd'
          · intro _
            have hcancel : (-v) * (y / (-v)) = y :=
              mul_div_cancel₀ _ (ne_of_gt hnegv)
            have hexp : (-v) * (d - y / (-v)) =
                (-v) * d - (-v) * (y / (-v)) := by ring
            rw [hexp, hcancel]
            linarith
          · intro hcontra
            exact absurd hcontra (by linarith)
      · rw [if_neg hv']
        simp

/-- Any non-negative travel fits under some bounce budget. -/
lemma exists_bounce_budget (a : ℚ) (_ha : 0 ≤ a) :
    a ≤ ((⌈a / screenHeight⌉).toNat : ℚ) * screenHeight := by
  have hS : (0:ℚ) < screenHeight := by norm_num [screenHeight]
  have h2 : (⌈a / screenHeight⌉ : ℤ) ≤ ((⌈a / screenHeight⌉).toNat : ℤ) :=
    Int.self_le_toNat _
  have h3 : a / screenHeight ≤ (((⌈a / screenHeight⌉).toNat : ℕ) : ℚ) := by
    calc a / screenHeight ≤ (⌈a / screenHeight⌉ : ℚ) := Int.le_ceil _
      _ ≤ _ := by exact_mod_cast h2
  calc a = a / screenHeight * screenHeight := (div_mul_cancel₀ a hS.ne').symm
    _ ≤ _ := mul_le_mul_of_nonneg_right h3 hS.le

/-- Claim C2: for every ball whose vertical position lies within the screen,
direction with nonzero horizontal component, and target line on the
approaching side, `predictBallY` equals the literal wall-bounce simulation of
the straight-line trajectory: the simulation reaches the target under some
bounce budget, and whenever it reaches the target — after any number of
intermediate bounces — it reports exactly the predictor's value. -/
theorem predictBallY_eq_bounce_simulation (ball : Ball) (targetX : ℚ)
    (h0 : 0 ≤ ball.position.y) (h1 : ball.position.y ≤ screenHeight)
    (_hdx : ball.versor.x ≠ 0)
    (happroach : 0 ≤ (targetX - ball.position.x) / ball.versor.x) :
    (∃ n : ℕ, (simulateBounces n ball.position.y ball.versor.y
        ((targetX - ball.position.x) / ball.versor.x)).isSome) ∧
    (∀ (n : ℕ) (r : ℚ),
      simulateBounces n ball.position.y ball.versor.y
        ((targetX - ball.position.x) / ball.versor.x) = some r →
      r = predictBallY ball targetX) := by
  have hS : (0:ℚ) < screenHeight := by norm_num [screenHeight]
  constructor
  · refine ⟨(⌈|ball.versor.y| *
        ((targetX - ball.position.x) / ball.versor.x) / screenHeight⌉).toNat, ?_⟩
    have hbudget := exists_bounce_budget
      (|ball.versor.y| * ((targetX - ball.position.x) / ball.versor.x))
      (mul_nonneg (abs_nonneg _) happroach)
    apply simulateBounces_isSome _ _ _ _ h0 h1 happroach
    · intro hv
      have habs : ball.versor.y * ((targetX - ball.position.x) / ball.versor.x) =
          |ball.versor.y| * ((targetX - ball.position.x) / ball.versor.x) := by
        rw [abs_of_pos hv]
      rw [habs]
      linarith
    · intro hv
      have habs : -ball.versor.y * ((targetX - ball.position.x) / ball.versor.x) =
          |ball.versor.y| * ((targetX - ball.position.x) / ball.versor.x) := by
        rw [abs_of_neg hv]
      rw [habs]
      linarith
  · intro n r hs
    have hr := simulateBounces_sound n ball.position.y ball.versor.y
      ((targetX - ball.position.x) / ball.versor.x) r h0 h1 happroach hs
    rw [hr, predictBallY_eq_floorFold]
    congr 1
    ring

/-- Concrete instantiation of `predictBallY_eq_bounce_simulation`: the spec's
worked example, where the simulation reaches the target with no bounce. -/
theorem predictBallY_eq_bounce_simulation_witness :
    (0 ≤ (Ball.mk (Vector2.mk 400 225) (Vector2.mk 1 (1/2)) 400 7).position.y ∧
     (Ball.mk (Vector2.mk 400 225) (Vector2.mk 1 (1/2)) 400 7).position.y
       ≤ screenHeight ∧
     (Ball.mk (Vector2.mk 400 225) (Vector2.mk 1 (1/2)) 400 7).versor.x ≠ 0 ∧
     0 ≤ (750 - (Ball.mk (Vector2.mk 400 225) (Vector2.mk 1 (1/2)) 400 7).position.x) /
       (Ball.mk (Vector2.mk 400 225) (Vector2.mk 1 (1/2)) 400 7).versor.x) ∧
    ((∃ n : ℕ, (simulateBounces n
        (Ball.mk (Vector2.mk 400 225) (Vector2.mk 1 (1/2)) 400 7).position.y
        (Ball.mk (Vector2.mk 400 225) (Vector2.mk 1 (1/2)) 400 7).versor.y
        ((750 - (Ball.mk (Vector2.mk 400 225) (Vector2.mk 1 (1/2)) 400 7).position.x) /
          (Ball.mk (Vector2.mk 400 225) (Vector2.mk 1 (1/2)) 400 7).versor.x)).isSome) ∧
     (∀ (n : ℕ) (r : ℚ),
        simulateBounces n
          (Ball.mk (Vector2.mk 400 225) (Vector2.mk 1 (1/2)) 400 7).position.y
          (Ball.mk (Vector2.mk 400 225) (Vector2.mk 1 (1/2)) 400 7).versor.y
          ((750 - (Ball.mk (Vector2.mk 400 225) (Vector2.mk 1 (1/2)) 400 7).position.x) /
            (Ball.mk (Vector2.mk 400 225) (Vector2.mk 1 (1/2)) 400 7).versor.x) = some r →
        r = predictBallY (Ball.mk (Vector2.mk 400 225) (Vector2.mk 1 (1/2)) 400 7) 750)) :=
  ⟨⟨by norm_num, by norm_num [screenHeight], by norm_num, by norm_num⟩,
   predictBallY_eq_bounce_simulation _ 750 (by norm_num)
     (by norm_num [screenHeight]) (by norm_num) (by norm_num)⟩

lemma handleAIPaddleMovement_ball (g : GameState) (b : Bool) :
    (handleAIPaddleMovement g b).ball = g.ball := by
  cases b
  · show (aiRecord (aiSteer (aiRecompute g))).ball = g.ball
    unfold aiRecord aiSteer aiRecompute
    split_ifs <;> rfl
  · rfl

lemma resetRound_ball (g : GameState) (rv : ℤ) :
    (resetRound g rv).ball =
      Ball.mk (Vector2.mk (screenWidth / 2) (screenHeight / 2))
        (Vector2.mk 1 (randomValidVersor rv)) 400 g.ball.radius := by
  unfold resetRound
  rw [handleAIPaddleMovement_ball]

lemma resetGame_ball (g : GameState) (rv : ℤ) :
    (resetGame g rv).ball =
      Ball.mk (Vector2.mk (screenWidth / 2) (screenHeight / 2))
        (Vector2.mk 1 (randomValidVersor rv)) 400 g.ball.radius := by
  unfold resetGame
  rw [handleAIPaddleMovement_ball]

lemma resetRound_scoreLeft (g : GameState) (rv : ℤ) :
    (resetRound g rv).scoreLeft = g.scoreLeft := rfl

lemma resetRound_scoreRight (g : GameState) (rv : ℤ) :
    (resetRound g rv).scoreRight = g.scoreRight := rfl

lemma handleWallBallCollision_ball (g : GameState) :
    (handleWallBallCollision g).ball.versor.x = g.ball.versor.x ∧
    (handleWallBallCollision g).ball.speed = g.ball.speed := by
  unfold handleWallBallCollision
  split_ifs <;> exact ⟨rfl, rfl⟩

lemma hitBall_versor_x (ball : Ball) (paddle : Paddle) :
    (hitBall ball paddle).versor.x = ball.versor.x ∨
    (hitBall ball paddle).versor.x = ball.versor.x * -1 := by
  unfold hitBall
  split_ifs
  · right
    rfl
  · left
    rfl

lemma hitBall_speed (ball : Ball) (paddle : Paddle) (h : 0 ≤ ball.speed) :
    ball.speed ≤ (hitBall ball paddle).speed := by
  unfold hitBall
  split_ifs
  · exact le_add_of_nonneg_right (mul_nonneg
      (mul_nonneg (by norm_num) (div_nonneg h (by norm_num))) (abs_nonneg _))
  · exact le_refl _

lemma handlePointScoring_ball (g : GameState) (rv : ℤ) :
    handlePointScoring g rv = g ∨
    ((handlePointScoring g rv).ball.versor.x = 1 ∧
     (handlePointScoring g rv).ball.speed = 400) := by
  unfold handlePointScoring
  split_ifs
  · right
    rw [resetRound_ball]
    exact ⟨rfl, rfl⟩
  · right
    rw [resetRound_ball]
    exact ⟨rfl, rfl⟩
  · left
    rfl

lemma reachable_speed_lb (g : GameState) (hg : Reachable g) :
    400 ≤ g.ball.speed := by
  induction hg with
  | init rv h1 h2 => exact le_refl 400
  | step gp gc hgp hs ih =>
    cases hs with
    | paddleHit isLeft =>
      exact le_trans ih (hitBall_speed _ _ (le_trans (by norm_num) ih))
    | wallHit =>
      rw [(handleWallBallCollision_ball gp).2]
      exact ih
    | scoring rv h1 h2 =>
      rcases handlePointScoring_ball gp rv with h | h
      · rw [h]
        exact ih
      · rw [h.2]
    | aiMove =>
      rw [handleAIPaddleMovement_ball]
      exact ih
    | playerInput v => exact ih
    | restart rv h1 h2 =>
      rw [resetGame_ball]
    | integrate dl dr db => exact ih

/-- Claim C4: in every reachable state the ball's `versor.x` is exactly `-1`
or `+1`, hence nonzero, so `predictBallY`'s division by `ball.versor.x` never
divides by zero; it is `+1` at init and after every round or full reset, and
a paddle hit only multiplies it by `-1`. -/
theorem ball_versor_x_unit (g : GameState) (hg : Reachable g) :
    ((g.ball.versor.x = 1 ∨ g.ball.versor.x = -1) ∧ g.ball.versor.x ≠ 0) ∧
    (∀ rv : ℤ, (initState rv).ball.versor.x = 1) ∧
    (∀ (g0 : GameState) (rv : ℤ), (resetRound g0 rv).ball.versor.x = 1 ∧
      (resetGame g0 rv).ball.versor.x = 1) ∧
    (∀ (b : Ball) (p : Paddle),
      checkCollisionCircleRec b.position b.radius (Paddle.toRectangle p) = true →
      (hitBall b p).versor.x = b.versor.x * -1) := by
  have hresets : ∀ (g0 : GameState) (rv : ℤ),
      (resetRound g0 rv).ball.versor.x = 1 ∧ (resetGame g0 rv).ball.versor.x = 1 := by
    intro g0 rv
    rw [resetRound_ball, resetGame_ball]
    exact ⟨rfl, rfl⟩
  have hhit : ∀ (b : Ball) (p : Paddle),
      checkCollisionCircleRec b.position b.radius (Paddle.toRectangle p) = true →
      (hitBall b p).versor.x = b.versor.x * -1 := by
    intro b p hcol
    unfold hitBall
    rw [if_pos hcol]
  have hmain : g.ball.versor.x = 1 ∨ g.ball.versor.x = -1 := by
    induction hg with
    | init rv h1 h2 => left; rfl
    | step gp gc hgp hs ih =>
      cases hs with
      | paddleHit isLeft =>
        rcases hitBall_versor_x gp.ball
            (if isLeft then gp.leftPaddle else gp.rightPaddle) with h | h
        · show (hitBall gp.ball (if isLeft then gp.leftPaddle else gp.rightPaddle)).versor.x = 1 ∨
            (hitBall gp.ball (if isLeft then gp.leftPaddle else gp.rightPaddle)).versor.x = -1
          rw [h]
          exact ih
        · show (hitBall gp.ball (if isLeft then gp.leftPaddle else gp.rightPaddle)).versor.x = 1 ∨
            (hitBall gp.ball (if isLeft then gp.leftPaddle else gp.rightPaddle)).versor.x = -1
          rw [h]
          rcases ih with h1 | h1
          · right
            rw [h1]
            norm_num
          · left
            rw [h1]
            norm_num
      | wallHit =>
        rw [(handleWallBallCollision_ball gp).1]
        exact ih
      | scoring rv h1 h2 =>
        rcases handlePointScoring_ball gp rv with h | h
        · rw [h]
          exact ih
        · left
          exact h.1
      | aiMove =>
        rw [handleAIPaddleMovement_ball]
        exact ih
      | playerInput v => exact ih
      | restart rv h1 h2 =>
        left
        rw [resetGame_ball]
      | integrate dl dr db => exact ih
  refine ⟨⟨hmain, ?_⟩, fun rv => rfl, hresets, hhit⟩
  rcases hmain with h | h <;> rw [h] <;> norm_num

/-- Concrete instantiation of `ball_versor_x_unit` at the freshly initialized
state. -/
theorem ball_versor_x_unit_witness :
    ((initState 500).ball.versor.x = 1 ∨ (initState 500).ball.versor.x = -1) ∧
    (initState 500).ball.versor.x ≠ 0 :=
  (ball_versor_x_unit (initState 500)
    (Reachable.init 500 (by norm_num) (by norm_num))).1

/-- Claim C7: the ball's speed never decreases across the frame phases except
at a round or full reset, each of which sets it exactly to the base `400`; a
paddle hit adds a non-negative increment, wall hits preserve speed, and a
scoring check in a frame where neither edge is crossed preserves speed. -/
theorem ball_speed_monotone (g : GameState) (hg : Reachable g) :
    (∀ isLeft : Bool,
      g.ball.speed ≤ (handlePaddleBallCollision g isLeft).ball.speed) ∧
    ((handleWallBallCollision g).ball.speed = g.ball.speed) ∧
    (∀ rv : ℤ, ¬ g.ball.position.x + g.ball.radius ≥ screenWidth →
      ¬ g.ball.position.x - g.ball.radius ≤ 0 →
      (handlePointScoring g rv).ball.speed = g.ball.speed) ∧
    (∀ (g0 : GameState) (rv : ℤ), (resetRound g0 rv).ball.speed = 400 ∧
      (resetGame g0 rv).ball.speed = 400) ∧
    (∀ g' : GameState, Step g g' →
      g.ball.speed ≤ g'.ball.speed ∨ g'.ball.speed = 400) := by
  have hlb := reachable_speed_lb g hg
  have h0 : (0:ℚ) ≤ g.ball.speed := le_trans (by norm_num) hlb
  have hresets : ∀ (g0 : GameState) (rv : ℤ),
      (resetRound g0 rv).ball.speed = 400 ∧ (resetGame g0 rv).ball.speed = 400 := by
    intro g0 rv
    rw [resetRound_ball, resetGame_ball]
    exact ⟨rfl, rfl⟩
  have hpaddle : ∀ isLeft : Bool,
      g.ball.speed ≤ (handlePaddleBallCollision g isLeft).ball.speed := by
    intro isLeft
    exact hitBall_speed _ _ h0
  have hnoscore : ∀ rv : ℤ, ¬ g.ball.position.x + g.ball.radius ≥ screenWidth →
      ¬ g.ball.position.x - g.ball.radius ≤ 0 →
      (handlePointScoring g rv).ball.speed = g.ball.speed := by
    intro rv h1 h2
    unfold handlePointScoring
    rw [if_neg h1, if_neg h2]
  refine ⟨hpaddle, (handleWallBallCollision_ball g).2, hnoscore, hresets, ?_⟩
  intro g' hs
  cases hs with
  | paddleHit isLeft => exact Or.inl (hpaddle isLeft)
  | wallHit => exact Or.inl (le_of_eq (handleWallBallCollision_ball g).2.symm)
  | scoring rv h1 h2 =>
    rcases handlePointScoring_ball g rv with h | h
    · left
      rw [h]
    · right
      exact h.2
  | aiMove =>
    left
    rw [handleAIPaddleMovement_ball]
  | playerInput v => exact Or.inl (le_refl _)
  | restart rv h1 h2 =>
    right
    rw [resetGame_ball]
  | integrate dl dr db => exact Or.inl (le_refl _)

/-- Concrete instantiation of `ball_speed_monotone` at the freshly
initialized state. -/
theorem ball_speed_monotone_witness :
    (handleWallBallCollision (initState 500)).ball.speed =
      (initState 500).ball.speed ∧
    (resetRound (initState 500) 500).ball.speed = 400 :=
  ⟨(ball_speed_monotone (initState 500)
      (Reachable.init 500 (by norm_num) (by norm_num))).2.1,
   ((ball_speed_monotone (initState 500)
      (Reachable.init 500 (by norm_num) (by norm_num))).2.2.2.1 (initState 500) 500).1⟩

/-- Claim C5: on a paddle collision, `handlePaddleBallCollision` flips the
ball's horizontal versor sign, sets the vertical versor to the hit offset
over the paddle's half height, and increases the speed by
`20 * (speed / 400) * |new vertical versor|`; nothing else changes. -/
theorem handlePaddleBallCollision_spec (g : GameState) (isLeft : Bool)
    (hcol : checkCollisionCircleRec g.ball.position g.ball.radius
      (Paddle.toRectangle (if isLeft then g.leftPaddle else g.rightPaddle)) = true) :
    (handlePaddleBallCollision g isLeft).ball.versor.x = g.ball.versor.x * -1 ∧
    (handlePaddleBallCollision g isLeft).ball.versor.y =
      (g.ball.position.y -
        (Paddle.getCenter (if isLeft then g.leftPaddle else g.rightPaddle)).y) /
        ((if isLeft then g.leftPaddle else g.rightPaddle).size.y / 2) ∧
    (handlePaddleBallCollision g isLeft).ball.speed =
      g.ball.speed + 20 * (g.ball.speed / 400) *
        |(handlePaddleBallCollision g isLeft).ball.versor.y| ∧
    (handlePaddleBallCollision g isLeft).ball.position = g.ball.position ∧
    (handlePaddleBallCollision g isLeft).ball.radius = g.ball.radius ∧
    (handlePaddleBallCollision g isLeft).leftPaddle = g.leftPaddle ∧
    (handlePaddleBallCollision g isLeft).rightPaddle = g.rightPaddle ∧
    (handlePaddleBallCollision g isLeft).scoreLeft = g.scoreLeft ∧
    (handlePaddleBallCollision g isLeft).scoreRight = g.scoreRight := by
  unfold handlePaddleBallCollision hitBall
  simp only [if_pos hcol]
  simp

/-- Concrete instantiation of `handlePaddleBallCollision_spec`: the ball
overlapping the left paddle. -/
theorem handlePaddleBallCollision_spec_witness :
    checkCollisionCircleRec sampleHitState.ball.position sampleHitState.ball.radius
      (Paddle.toRectangle (if true then sampleHitState.leftPaddle
        else sampleHitState.rightPaddle)) = true ∧
    ((handlePaddleBallCollision sampleHitState true).ball.versor.x =
      sampleHitState.ball.versor.x * -1 ∧
     (handlePaddleBallCollision sampleHitState true).ball.speed =
      sampleHitState.ball.speed + 20 * (sampleHitState.ball.speed / 400) *
        |(handlePaddleBallCollision sampleHitState true).ball.versor.y|) :=
  ⟨by norm_num [checkCollisionCircleRec, sampleHitState, initState,
      Paddle.toRectangle, screenWidth, screenHeight, min_def, max_def],
   ⟨(handlePaddleBallCollision_spec sampleHitState true
      (by norm_num [checkCollisionCircleRec, sampleHitState, initState,
        Paddle.toRectangle, screenWidth, screenHeight, min_def, max_def])).1,
    (handlePaddleBallCollision_spec sampleHitState true
      (by norm_num [checkCollisionCircleRec, sampleHitState, initState,
        Paddle.toRectangle, screenWidth, screenHeight, min_def, max_def])).2.2.1⟩⟩

/-- Claim C6 counterexample: `Paddle::update` does not re-establish screen
containment for a paddle that is already out of bounds — with a zero
displacement (zero versor, hence zero `normaliseVersor` result for any
`deltaTime`) the paddle at `(-100, -100)` stays at `(-100, -100)`, so "after
a single update the paddle rectangle is fully contained in the screen" fails
for that paddle state. -/
theorem paddleUpdate_out_of_bounds_counterexample :
    ¬ (0 ≤ (Paddle.update (Paddle.mk (Vector2.mk (-100) (-100)) (Vector2.mk 0 0) 0
          (Vector2.mk 10 10)) (Vector2.mk 0 0)).position.x ∧
       (Paddle.update (Paddle.mk (Vector2.mk (-100) (-100)) (Vector2.mk 0 0) 0
          (Vector2.mk 10 10)) (Vector2.mk 0 0)).position.x +
         (Paddle.update (Paddle.mk (Vector2.mk (-100) (-100)) (Vector2.mk 0 0) 0
          (Vector2.mk 10 10)) (Vector2.mk 0 0)).size.x ≤ screenWidth ∧
       0 ≤ (Paddle.update (Paddle.mk (Vector2.mk (-100) (-100)) (Vector2.mk 0 0) 0
          (Vector2.mk 10 10)) (Vector2.mk 0 0)).position.y ∧
       (Paddle.update (Paddle.mk (Vector2.mk (-100) (-100)) (Vector2.mk 0 0) 0
          (Vector2.mk 10 10)) (Vector2.mk 0 0)).position.y +
         (Paddle.update (Paddle.mk (Vector2.mk (-100) (-100)) (Vector2.mk 0 0) 0
          (Vector2.mk 10 10)) (Vector2.mk 0 0)).size.y ≤ screenHeight) := by
  norm_num [Paddle.update, screenWidth, screenHeight]

/-- Claim C6 (amended): for every paddle state whose rectangle starts fully
inside the screen and every per-frame displacement, after a single
`Paddle::update` the paddle rectangle remains fully contained in
`[0, screenWidth] × [0, screenHeight]`; and on each axis a displacement whose
result would leave the bounds is discarded entirely (the position is kept,
not clamped to the boundary). -/
theorem paddleUpdate_preserves_bounds (p : Paddle) (delta : Vector2)
    (hx0 : 0 ≤ p.position.x) (hx1 : p.position.x + p.size.x ≤ screenWidth)
    (hy0 : 0 ≤ p.position.y) (hy1 : p.position.y + p.size.y ≤ screenHeight) :
    (0 ≤ (Paddle.update p delta).position.x ∧
     (Paddle.update p delta).position.x + (Paddle.update p delta).size.x ≤ screenWidth ∧
     0 ≤ (Paddle.update p delta).position.y ∧
     (Paddle.update p delta).position.y + (Paddle.update p delta).size.y ≤ screenHeight) ∧
    (¬ (0 ≤ p.position.x + delta.x ∧ p.position.x + delta.x + p.size.x ≤ screenWidth) →
      (Paddle.update p delta).position.x = p.position.x) ∧
    (¬ (0 ≤ p.position.y + delta.y ∧ p.position.y + delta.y + p.size.y ≤ screenHeight) →
      (Paddle.update p delta).position.y = p.position.y) ∧
    (Paddle.update p delta).size = p.size := by
  unfold Paddle.update
  refine ⟨⟨?_, ?_, ?_, ?_⟩, ?_, ?_, rfl⟩
  · show 0 ≤ if 0 ≤ p.position.x + delta.x ∧ p.position.x + delta.x + p.size.x ≤ screenWidth
        then p.position.x + delta.x else p.position.x
    split_ifs with h
    · exact h.1
    · exact hx0
  · show (if 0 ≤ p.position.x + delta.x ∧ p.position.x + delta.x + p.size.x ≤ screenWidth
        then p.position.x + delta.x else p.position.x) + p.size.x ≤ screenWidth
    split_ifs with h
    · exact h.2
    · exact hx1
  · show 0 ≤ if 0 ≤ p.position.y + delta.y ∧ p.position.y + delta.y + p.size.y ≤ screenHeight
        then p.position.y + delta.y else p.position.y
    split_ifs with h
    · exact h.1
    · exact hy0
  · show (if 0 ≤ p.position.y + delta.y ∧ p.position.y + delta.y + p.size.y ≤ screenHeight
        then p.position.y + delta.y else p.position.y) + p.size.y ≤ screenHeight
    split_ifs with h
    · exact h.2
    · exact hy1
  · intro h
    show (if 0 ≤ p.position.x + delta.x ∧ p.position.x + delta.x + p.size.x ≤ screenWidth
        then p.position.x + delta.x else p.position.x) = p.position.x
    rw [if_neg h]
  · intro h
    show (if 0 ≤ p.position.y + delta.y ∧ p.position.y + delta.y + p.size.y ≤ screenHeight
        then p.position.y + delta.y else p.position.y) = p.position.y
    rw [if_neg h]

/-- Concrete instantiation of `paddleUpdate_preserves_bounds`: the initial
left paddle with a large downward displacement stops short of the wall. -/
theorem paddleUpdate_preserves_bounds_witness :
    (0 ≤ (Paddle.mk (Vector2.mk 50 175) (Vector2.mk 0 0) 300 (Vector2.mk 10 100)).position.x ∧
     (Paddle.mk (Vector2.mk 50 175) (Vector2.mk 0 0) 300 (Vector2.mk 10 100)).position.x +
       (Paddle.mk (Vector2.mk 50 175) (Vector2.mk 0 0) 300 (Vector2.mk 10 100)).size.x ≤ screenWidth ∧
     0 ≤ (Paddle.mk (Vector2.mk 50 175) (Vector2.mk 0 0) 300 (Vector2.mk 10 100)).position.y ∧
     (Paddle.mk (Vector2.mk 50 175) (Vector2.mk 0 0) 300 (Vector2.mk 10 100)).position.y +
       (Paddle.mk (Vector2.mk 50 175) (Vector2.mk 0 0) 300 (Vector2.mk 10 100)).size.y ≤ screenHeight) ∧
    (0 ≤ (Paddle.update (Paddle.mk (Vector2.mk 50 175) (Vector2.mk 0 0) 300 (Vector2.mk 10 100))
        (Vector2.mk 0 1000)).position.x ∧
     (Paddle.update (Paddle.mk (Vector2.mk 50 175) (Vector2.mk 0 0) 300 (Vector2.mk 10 100))
        (Vector2.mk 0 1000)).position.x +
       (Paddle.update (Paddle.mk (Vector2.mk 50 175) (Vector2.mk 0 0) 300 (Vector2.mk 10 100))
        (Vector2.mk 0 1000)).size.x ≤ screenWidth ∧
     0 ≤ (Paddle.update (Paddle.mk (Vector2.mk 50 175) (Vector2.mk 0 0) 300 (Vector2.mk 10 100))
        (Vector2.mk 0 1000)).position.y ∧
     (Paddle.update (Paddle.mk (Vector2.mk 50 175) (Vector2.mk 0 0) 300 (Vector2.mk 10 100))
        (Vector2.mk 0 1000)).position.y +
       (Paddle.update (Paddle.mk (Vector2.mk 50 175) (Vector2.mk 0 0) 300 (Vector2.mk 10 100))
        (Vector2.mk 0 1000)).size.y ≤ screenHeight) :=
  ⟨⟨by norm_num, by norm_num [screenWidth], by norm_num, by norm_num [screenHeight]⟩,
   (paddleUpdate_preserves_bounds
      (Paddle.mk (Vector2.mk 50 175) (Vector2.mk 0 0) 300 (Vector2.mk 10 100))
      (Vector2.mk 0 1000)
      (by norm_num) (by norm_num [screenWidth])
      (by norm_num) (by norm_num [screenHeight])).1⟩

/-- Claim C8: `handlePointScoring` — right-edge crossing increments the left
score exactly once and performs exactly one round reset (right score
unchanged); otherwise a left-edge crossing increments the right score exactly
once with one round reset (left score unchanged); otherwise the state is
untouched. -/
theorem handlePointScoring_spec (g : GameState) (rv : ℤ) :
    (g.ball.position.x + g.ball.radius ≥ screenWidth →
      handlePointScoring g rv =
        resetRound { g with scoreLeft := g.scoreLeft + 1 } rv ∧
      (handlePointScoring g rv).scoreLeft = g.scoreLeft + 1 ∧
      (handlePointScoring g rv).scoreRight = g.scoreRight) ∧
    (¬ g.ball.position.x + g.ball.radius ≥ screenWidth →
      g.ball.position.x - g.ball.radius ≤ 0 →
      handlePointScoring g rv =
        resetRound { g with scoreRight := g.scoreRight + 1 } rv ∧
      (handlePointScoring g rv).scoreRight = g.scoreRight + 1 ∧
      (handlePointScoring g rv).scoreLeft = g.scoreLeft) ∧
    (¬ g.ball.position.x + g.ball.radius ≥ screenWidth →
      ¬ g.ball.position.x - g.ball.radius ≤ 0 →
      handlePointScoring g rv = g) := by
  refine ⟨?_, ?_, ?_⟩
  · intro h
    have he : handlePointScoring g rv = resetRound (incrementScore g true) rv := by
      unfold handlePointScoring
      rw [if_pos h]
    refine ⟨he, ?_, ?_⟩
    · rw [he, resetRound_scoreLeft]
      rfl
    · rw [he, resetRound_scoreRight]
      rfl
  · intro h1 h2
    have he : handlePointScoring g rv = resetRound (incrementScore g false) rv := by
      unfold handlePointScoring
      rw [if_neg h1, if_pos h2]
    refine ⟨he, ?_, ?_⟩
    · rw [he, resetRound_scoreRight]
      rfl
    · rw [he, resetRound_scoreLeft]
      rfl
  · intro h1 h2
    unfold handlePointScoring
    rw [if_neg h1, if_neg h2]

/-- Concrete instantiation of `handlePointScoring_spec`: the ball's right
edge crossing `x = screenWidth`. -/
theorem handlePointScoring_spec_witness :
    sampleScoringState.ball.position.x + sampleScoringState.ball.radius ≥ screenWidth ∧
    (handlePointScoring sampleScoringState 0 =
      resetRound { sampleScoringState with
        scoreLeft := sampleScoringState.scoreLeft + 1 } 0 ∧
     (handlePointScoring sampleScoringState 0).scoreLeft =
       sampleScoringState.scoreLeft + 1 ∧
     (handlePointScoring sampleScoringState 0).scoreRight =
       sampleScoringState.scoreRight) :=
  ⟨by norm_num [sampleScoringState, screenWidth],
   (handlePointScoring_spec sampleScoringState 0).1
     (by norm_num [sampleScoringState, screenWidth])⟩

/-- Claim C9: the input resolver — neutral when no key is held; the held key
when exactly one is held; when both are held, the key distinct from the
previously recorded sole key; and the press-up, press-down-while-up-held,
release-up, release-both scenario yields up, down, down, neutral. -/
theorem getCurrentVerticalKey_spec :
    (∀ a : ℤ, getCurrentVerticalKey a false false = (-1, -1)) ∧
    (∀ a : ℤ, getCurrentVerticalKey a true false = (KEY_UP, KEY_UP)) ∧
    (∀ a : ℤ, getCurrentVerticalKey a false true = (KEY_DOWN, KEY_DOWN)) ∧
    ((getCurrentVerticalKey KEY_UP true true).1 = KEY_DOWN ∧
     (getCurrentVerticalKey KEY_DOWN true true).1 = KEY_UP) ∧
    ((getCurrentVerticalKey (-1) true false).1 = KEY_UP ∧
     (getCurrentVerticalKey
        (getCurrentVerticalKey (-1) true false).2 true true).1 = KEY_DOWN ∧
     (getCurrentVerticalKey
        (getCurrentVerticalKey
          (getCurrentVerticalKey (-1) true false).2 true true).2 false true).1 =
       KEY_DOWN ∧
     (getCurrentVerticalKey
        (getCurrentVerticalKey
          (getCurrentVerticalKey
            (getCurrentVerticalKey (-1) true false).2 true true).2 false true).2
        false false).1 = -1) := by
  refine ⟨fun a => rfl, fun a => rfl, fun a => rfl, by decide, by decide⟩

/-- Claim C10: every serve — at init, after every round reset and after every
full reset — directs the ball with horizontal versor exactly `+1` (toward the
AI paddle, regardless of who scored) and a vertical versor drawn from
`[-1, 1]` that is never `0`: a drawn value of `0` is replaced by `-1`. -/
theorem serve_direction_spec (g : GameState) (rv : ℤ)
    (h1 : -1000 ≤ rv) (h2 : rv ≤ 1000) :
    ((initState rv).ball.versor.x = 1 ∧ (resetRound g rv).ball.versor.x = 1 ∧
     (resetGame g rv).ball.versor.x = 1) ∧
    ((initState rv).ball.versor.y = randomValidVersor rv ∧
     (resetRound g rv).ball.versor.y = randomValidVersor rv ∧
     (resetGame g rv).ball.versor.y = randomValidVersor rv) ∧
    (-1 ≤ randomValidVersor rv ∧ randomValidVersor rv ≤ 1 ∧
     randomValidVersor rv ≠ 0) ∧
    ((rv : ℚ) / 1000 = 0 → randomValidVersor rv = -1) := by
  have hrr := resetRound_ball g rv
  have hrg := resetGame_ball g rv
  have h1q : (-1000 : ℚ) ≤ (rv : ℚ) := by exact_mod_cast h1
  have h2q : (rv : ℚ) ≤ 1000 := by exact_mod_cast h2
  refine ⟨⟨rfl, ?_, ?_⟩, ⟨rfl, ?_, ?_⟩, ?_, ?_⟩
  · rw [hrr]
  · rw [hrg]
  · rw [hrr]
  · rw [hrg]
  · unfold randomValidVersor
    simp only []
    split_ifs with hz
    · norm_num
    · refine ⟨?_, ?_, hz⟩
      · rw [le_div_iff₀ (by norm_num : (0:ℚ) < 1000)]
        linarith
      · rw [div_le_one (by norm_num : (0:ℚ) < 1000)]
        linarith
  · intro hz
    unfold randomValidVersor
    simp only []
    rw [if_pos hz]

/-- Concrete instantiation of `serve_direction_spec` at the draw `rv = 0`
(the case the source patches to `-1`). -/
theorem serve_direction_spec_witness :
    ((-1000 : ℤ) ≤ 0 ∧ (0 : ℤ) ≤ 1000) ∧
    ((initState 0).ball.versor.x = 1 ∧
     (resetRound (initState 0) 0).ball.versor.x = 1 ∧
     (resetGame (initState 0) 0).ball.versor.x = 1) ∧
    (-1 ≤ randomValidVersor 0 ∧ randomValidVersor 0 ≤ 1 ∧
     randomValidVersor 0 ≠ 0) ∧
    ((0 : ℚ) / 1000 = 0 → randomValidVersor 0 = -1) :=
  ⟨⟨by norm_num, by norm_num⟩,
   (serve_direction_spec (initState 0) 0 (by norm_num) (by norm_num)).1,
   (serve_direction_spec (initState 0) 0 (by norm_num) (by norm_num)).2.2.1,
   (serve_direction_spec (initState 0) 0 (by norm_num) (by norm_num)).2.2.2⟩

end Pong
